import Mathlib

/-!
Verification development for the claude-army task-supervision server
(`src/index.js`).  The JavaScript source is shallowly embedded: strings are
`List Char` (written `Str`), JSON values are the inductive `JVal`, and the
runtime's `JSON.parse` is a parameter `decode : Str → Option JVal` of the
stream-processing functions (the code calls it on each complete segment).
Timestamps (`new Date()` / Date.now) are modelled as `Nat` parameters.
Worker-process side effects (signals, timers) do not mutate the task record
in the source and are not modelled; the live process handle is modelled by
the boolean field `hasProcess`.
-/

namespace ClaudeArmy

/-- JavaScript strings, embedded as lists of characters. -/
abbrev Str := List Char

/-- `s.trim()` : strip leading and trailing whitespace. -/
def trimStr (s : Str) : Str :=
  ((s.dropWhile Char.isWhitespace).reverse.dropWhile Char.isWhitespace).reverse

/-- Helper for `splitNl`: prepend a character to the first segment. -/
def consHead (c : Char) : List Str → List Str
  | [] => [[c]]
  | h :: t => (c :: h) :: t

/-- `s.split("\n")` : split on the record separator, never returns `[]`. -/
def splitNl : Str → List Str
  | [] => [[]]
  | c :: rest =>
    if c = '\n' then [] :: splitNl rest
    else consHead c (splitNl rest)

/-- `lines.join("\n")`. -/
def joinNl : List Str → Str
  | [] => []
  | [x] => x
  | x :: rest => x ++ '\n' :: joinNl rest

/-- `l.slice(-n)` : the last `n` elements (the whole list when `n ≥ l.length`). -/
def takeLast {α : Type} (n : Nat) (l : List α) : List α :=
  l.drop (l.length - n)

/-- Merge a pending prefix into the first segment of a split. -/
def mergeHead (p : Str) : List Str → List Str
  | [] => [p]
  | h :: rest => (p ++ h) :: rest

/-- A decoded JSON value (the result of `JSON.parse` on one stream segment). -/
inductive JVal where
  | jnull : JVal
  | jbool : Bool → JVal
  | jnum : Int → JVal
  | jstr : Str → JVal
  | jarr : List JVal → JVal
  | jobj : List (Str × JVal) → JVal

/-- Property access `v[k]` on an object; `none` models `undefined`. -/
def JVal.get (v : JVal) (k : Str) : Option JVal :=
  match v with
  | .jobj fields => lookupField fields
  | _ => none
where
  lookupField : List (Str × JVal) → Option JVal
    | [] => none
    | (k₂, x) :: rest => if k₂ = k then some x else lookupField rest

/-- JavaScript truthiness of a value. -/
def truthy : JVal → Bool
  | .jnull => false
  | .jbool b => b
  | .jnum n => n ≠ 0
  | .jstr s => s ≠ []
  | .jarr _ => true
  | .jobj _ => true

/-- JavaScript truthiness of a possibly-undefined value. -/
def truthyO : Option JVal → Bool
  | none => false
  | some v => truthy v

/-- Property access that is used only when the payload is a string
(`event.type === "assistant"` style comparisons against string literals). -/
def getStrField (v : JVal) (k : Str) : Option Str :=
  match v.get k with
  | some (.jstr s) => some s
  | _ => none

mutual

/-- JavaScript string coercion `String(v)` / template-literal interpolation.
Array elements are joined with `","`; the worker's stream always carries
strings here, so the exotic branches are never exercised. -/
def jsToString : JVal → Str
  | .jnull => "null".data
  | .jbool b => if b then "true".data else "false".data
  | .jnum n => (toString n).data
  | .jstr s => s
  | .jarr xs => jsToStringArr xs
  | .jobj _ => "[object Object]".data

/-- Array elements joined with `","`. -/
def jsToStringArr : List JVal → Str
  | [] => []
  | [x] => jsToString x
  | x :: rest => jsToString x ++ ',' :: jsToStringArr rest

end

/-- `a || b || … || d` : the first truthy value in the chain, else the
final default. -/
def jsOrD : List (Option JVal) → JVal → JVal
  | [], d => d
  | x :: rest, d =>
    match x with
    | some v => if truthy v then v else jsOrD rest d
    | none => jsOrD rest d

/-- `a || b` on possibly-undefined values (used when synthesizing the
`parseToolUseBlock` argument for a top-level `tool_use` event). -/
def jsOr (a b : Option JVal) : Option JVal :=
  if truthyO a then a else b

/-- One progress item `{type, summary}` produced by the event parser. -/
structure PEntry where
  type : Str
  summary : Str
deriving Repr, DecidableEq

/-- `parseToolUseBlock` : map a `tool_use` content block to one progress
entry (source lines 86-130).  The `switch` compares the tool name against
string literals, so a non-string truthy name falls to the default branch. -/
def parseToolUseBlock (block : JVal) : PEntry :=
  let nameV : JVal :=
    match block.get "name".data with
    | some v => if truthy v then v else .jstr "unknown_tool".data
    | none => .jstr "unknown_tool".data
  let input : JVal :=
    match block.get "input".data with
    | some v => if truthy v then v else .jobj []
    | none => .jobj []
  match nameV with
  | .jstr tn =>
    if tn = "Read".data ∨ tn = "View".data ∨ tn = "read_file".data then
      ⟨"read".data, "📖 Reading: ".data ++
        jsToString (jsOrD [input.get "file_path".data, input.get "path".data] (.jstr "file".data))⟩
    else if tn = "Write".data ∨ tn = "write_file".data ∨ tn = "create_file".data then
      ⟨"write".data, "✏️ Writing: ".data ++
        jsToString (jsOrD [input.get "file_path".data, input.get "path".data] (.jstr "file".data))⟩
    else if tn = "Edit".data ∨ tn = "str_replace".data ∨ tn = "edit_file".data then
      ⟨"edit".data, "🔧 Editing: ".data ++
        jsToString (jsOrD [input.get "file_path".data, input.get "path".data] (.jstr "file".data))⟩
    else if tn = "Bash".data ∨ tn = "bash".data ∨ tn = "execute_command".data then
      ⟨"bash".data, "⚙️ Running: ".data ++
        (jsToString (jsOrD [input.get "command".data, input.get "cmd".data] (.jstr []))).take 80⟩
    else if tn = "List".data ∨ tn = "list_directory".data then
      ⟨"list".data, "📁 Listing: ".data ++
        jsToString (jsOrD [input.get "path".data, input.get "dir".data] (.jstr "directory".data))⟩
    else if tn = "Search".data ∨ tn = "search".data ∨ tn = "Grep".data ∨ tn = "grep".data then
      ⟨"search".data, "🔍 Searching: ".data ++
        jsToString (jsOrD [input.get "pattern".data, input.get "query".data] (.jstr "...".data))⟩
    else if tn = "Task".data ∨ tn = "dispatch_task".data then
      ⟨"subtask".data, "🪖 Spawning sub-agent: ".data ++
        (jsToString (jsOrD [input.get "task".data, input.get "description".data] (.jstr []))).take 60⟩
    else
      ⟨"tool".data, "🔨 ".data ++ tn⟩
  | _ => ⟨"tool".data, "🔨 ".data ++ jsToString nameV⟩

/-- The (coerced) `block.text` when it is truthy, else `none`. -/
def blockText (block : JVal) : Option Str :=
  match block.get "text".data with
  | some v => if truthy v then some (jsToString v) else none
  | none => none

/-- Body of the per-block loop inside `parseProgressEvent`'s `assistant`
case (source lines 146-157): a non-empty trimmed text block yields one
`thinking` entry (first line, truncated to 120), a `tool_use` block yields
one tool entry, anything else yields nothing. -/
def parseBlock (block : JVal) : List PEntry :=
  if getStrField block "type".data = some "text".data then
    match blockText block with
    | some s =>
      let text := trimStr s
      if text.length > 0 then
        [⟨"thinking".data, ((splitNl text).headD []).take 120⟩]
      else []
    | none =>
      if getStrField block "type".data = some "tool_use".data then
        [parseToolUseBlock block]
      else []
  else if getStrField block "type".data = some "tool_use".data then
    [parseToolUseBlock block]
  else []

/-- `parseProgressEvent` (source lines 136-181) : map one decoded record to
progress entries.  `none` models the source's `null`; the source never
returns a non-null empty collection. -/
def parseProgressEvent (event : JVal) : Option (List PEntry) :=
  if getStrField event "type".data = some "assistant".data then
    match event.get "message".data with
    | some msg =>
      if getStrField msg "type".data = some "message".data then
        match msg.get "content".data with
        | some (.jarr blocks) =>
          let results := blocks.flatMap parseBlock
          if results.length > 0 then some results else none
        | _ => none
      else none
    | none => none
  else if getStrField event "type".data = some "tool_use".data then
    some [parseToolUseBlock (.jobj (
      (match jsOr (event.get "tool_name".data) (event.get "name".data) with
        | some v => [("name".data, v)]
        | none => []) ++
      [("input".data, jsOrD [event.get "input".data, event.get "tool_input".data] (.jobj []))]))]
  else if getStrField event "type".data = some "result".data then
    some [⟨"result".data, "✅ Agent finished processing".data⟩]
  else none

/-- Task lifecycle status. -/
inductive Status where
  | starting
  | running
  | completed
  | failed
  | cancelled
deriving Repr, DecidableEq

/-- One stored progress entry `{timestamp, type, summary}`. -/
structure Progress where
  timestamp : Nat
  type : Str
  summary : Str
deriving Repr, DecidableEq

/-- The mutable task record (class `Task`, source lines 22-77).  The live
process handle is modelled by `hasProcess`; `_stdoutBuffer` is `buffer`. -/
structure Task where
  id : Str
  description : Str
  workingDir : Str
  status : Status
  hasProcess : Bool
  stdout : Str
  stderr : Str
  exitCode : Option Int
  startedAt : Nat
  completedAt : Option Nat
  model : Option Str
  permissionMode : Str
  progressLog : List Progress
  lastActivity : Option Nat
  resultText : Str
  buffer : Str
deriving Repr, DecidableEq

/-- The `Task` constructor (source lines 23-41): `options.model || null`,
`options.permissionMode || "default"`. -/
def Task.make (id description workingDir : Str)
    (model : Option Str) (permissionMode : Option Str) (now : Nat) : Task where
  id := id
  description := description
  workingDir := workingDir
  status := .starting
  hasProcess := false
  stdout := []
  stderr := []
  exitCode := none
  startedAt := now
  completedAt := none
  model := match model with
    | some m => if m ≠ [] then some m else none
    | none => none
  permissionMode := match permissionMode with
    | some p => if p ≠ [] then p else "default".data
    | none => "default".data
  progressLog := []
  lastActivity := none
  resultText := []
  buffer := []

/-- `Task.addProgress` (source lines 43-55): append, stamp `lastActivity`,
keep the last 50 entries (`slice(-50)`). -/
def addProgress (now : Nat) (t : Task) (ty summary : Str) : Task :=
  let entry : Progress := ⟨now, ty, summary⟩
  let log := t.progressLog ++ [entry]
  let log := if log.length > 50 then log.drop (log.length - 50) else log
  { t with progressLog := log, lastActivity := some now }

/-- `Task.getLatestProgress` (source lines 57-59): `slice(-count)`. -/
def getLatestProgress (t : Task) (count : Nat) : List Progress :=
  takeLast count t.progressLog

/-- Append the entries produced by `parseProgressEvent` (the
`if (progress) { … }` block shared by the data and close handlers). -/
def addEntries (now : Nat) (t : Task) (progress : Option (List PEntry)) : Task :=
  match progress with
  | none => t
  | some entries => entries.foldl (fun t e => addProgress now t e.type e.summary) t

/-- The content array of an assistant message record, when present
(`event.type === "assistant" && event.message?.type === "message"` and
`Array.isArray(event.message.content)`). -/
def assistantContent (event : JVal) : Option (List JVal) :=
  if getStrField event "type".data = some "assistant".data then
    match event.get "message".data with
    | some msg =>
      if getStrField msg "type".data = some "message".data then
        match msg.get "content".data with
        | some (.jarr blocks) => some blocks
        | _ => none
      else none
    | none => none
  else none

/-- The text contributed to `resultText` by one content block
(`if (block.type === "text" && block.text) task.resultText += block.text`). -/
def blockAccum (block : JVal) : Str :=
  if getStrField block "type".data = some "text".data then
    (blockText block).getD []
  else []

/-- Source lines 201-211 (and 283-292): append every truthy text block of an
assistant message to the assembled `resultText`. -/
def accumText (t : Task) (event : JVal) : Task :=
  match assistantContent event with
  | some blocks => { t with resultText := t.resultText ++ (blocks.map blockAccum).flatten }
  | none => t

/-- Source lines 213-221: a result record's payload seeds `resultText` only
when nothing has been accumulated yet. -/
def seedResult (t : Task) (event : JVal) : Task :=
  if getStrField event "type".data = some "result".data ∧
     truthyO (event.get "result".data) ∧ t.resultText = [] then
    match event.get "result".data with
    | some (.jstr s) => { t with resultText := s }
    | some r =>
      match r.get "text".data with
      | some v => if truthy v then { t with resultText := jsToString v } else t
      | none => t
    | none => t
  else t

/-- The assembled-result text after `seedResult`, as a function of the
current text (the source mutates `task.resultText` in place). -/
def seedValue (cur : Str) (e : JVal) : Str :=
  if getStrField e "type".data = some "result".data ∧
     truthyO (e.get "result".data) ∧ cur = [] then
    match e.get "result".data with
    | some (.jstr s) => s
    | some r =>
      match r.get "text".data with
      | some v => if truthy v then jsToString v else cur
      | none => cur
    | none => cur
  else cur

/-- The decode-success branch of `processStreamData`'s per-line loop
(source lines 199-230): text accumulation, result seeding, then progress. -/
def processEvent (now : Nat) (t : Task) (event : JVal) : Task :=
  addEntries now (seedResult (accumText t event) event) (parseProgressEvent event)

/-- The body of `processStreamData`'s per-line loop (source lines 194-235):
skip blank lines, decode, fall back to raw stdout on failure. -/
def processLine (decode : Str → Option JVal) (now : Nat) (t : Task) (line : Str) : Task :=
  let trimmed := trimStr line
  if trimmed = [] then t
  else
    match decode trimmed with
    | some event => processEvent now t event
    | none => { t with stdout := t.stdout ++ trimmed ++ ['\n'] }

/-- `processStreamData` (source lines 187-236): append the chunk to the
buffer, split on newlines, keep the (possibly incomplete) final segment as
the new buffer, process each complete segment in order. -/
def processStreamData (decode : Str → Option JVal) (now : Nat) (t : Task) (rawData : Str) :
    Task :=
  let parts := splitNl (t.buffer ++ rawData)
  parts.dropLast.foldl (processLine decode now) { t with buffer := parts.getLastD [] }

/-- The buffer-flush pass of the `close` handler (source lines 272-297):
decode the trimmed residue once; on success add progress entries and then
accumulate assistant text (there is no result-seeding branch here); on
failure append the raw, untrimmed buffer to `stdout` with no separator. -/
def flushBuffer (decode : Str → Option JVal) (now : Nat) (t : Task) : Task :=
  if trimStr t.buffer ≠ [] then
    let t' :=
      match decode (trimStr t.buffer) with
      | some event => accumText (addEntries now t (parseProgressEvent event)) event
      | none => { t with stdout := t.stdout ++ t.buffer }
    { t' with buffer := [] }
  else t

/-- String form of the exit code in the failure message (`null` when the
worker was killed by a signal). -/
def codeStr : Option Int → Str
  | none => "null".data
  | some n => (toString n).data

/-- The `close` handler (source lines 271-326): flush the buffer, record the
exit code, unconditionally set the terminal status, stamp completion, drop
the process handle, and add a completion or failure-summary entry. -/
def closeStep (decode : Str → Option JVal) (now : Nat) (t : Task) (code : Option Int) :
    Task :=
  let t := flushBuffer decode now t
  let t := { t with exitCode := code,
                    status := if code = some 0 then Status.completed else Status.failed,
                    completedAt := some now,
                    hasProcess := false }
  if code = some 0 then
    addProgress now t "system".data "✅ Task completed".data
  else
    let failMsg := "❌ Task failed (exit code: ".data ++ codeStr code ++ ")".data
    let recentProgress := getLatestProgress t 5
    let failMsg :=
      if recentProgress.length > 0 then
        failMsg ++ "\nLast activity before failure:\n".data ++
          joinNl (recentProgress.map (fun p => "  → ".data ++ p.summary))
      else failMsg
    let failMsg :=
      if trimStr t.stderr ≠ [] then
        let stderrLines := splitNl (trimStr t.stderr)
        failMsg ++ "\nStderr (last ".data ++ (toString (min stderrLines.length 10)).data ++
          " lines):\n".data ++ joinNl (takeLast 10 stderrLines)
      else failMsg
    addProgress now t "system".data failMsg

/-- The synchronous part of `spawnClaudeAgent` (source lines 253-261):
attach the process handle, move to `running`, log the start entry.  The
argument-vector construction has no effect on the task record. -/
def spawnInit (now : Nat) (t : Task) : Task :=
  addProgress now { t with hasProcess := true, status := Status.running }
    "system".data "🚀 Agent started".data

/-- The process-wide task registry (`const tasks = new Map()`), as an
insertion-ordered association list. -/
abbrev Registry := List (Str × Task)

/-- `tasks.get(id)`. -/
def findTask (reg : Registry) (tid : Str) : Option Task :=
  match reg with
  | [] => none
  | (k, t) :: rest => if k = tid then some t else findTask rest tid

/-- In-place mutation of a registered task (JS objects are shared by
reference, so mutating the looked-up task updates the registry entry). -/
def setTask (reg : Registry) (tid : Str) (t' : Task) : Registry :=
  reg.map (fun kt => if kt.1 = tid then (kt.1, t') else kt)

/-- `getActiveTasks` (source lines 355-357). -/
def getActiveTasks (reg : Registry) : List Task :=
  (reg.map Prod.snd).filter (fun t => t.status = Status.running)

/-- `MAX_CONCURRENT_TASKS` (source line 16). -/
def MAX_CONCURRENT_TASKS : Nat := 5

/-- Outcome of the `dispatch_task` handler. -/
inductive DispatchResult where
  | capacityExceeded
  | invalidTarget
  | dispatched (id : Str)
deriving Repr, DecidableEq

/-- The `dispatch_task` handler (source lines 494-537).  `dirExists` models
`existsSync(workDir)` and `newId` the fresh identifier drawn from
`randomUUID()`; both are consulted only after the capacity gate passes. -/
def dispatch_task (dirExists : Bool) (newId : Str) (now : Nat) (reg : Registry)
    (description workDir : Str) (model : Option Str) (permissionMode : Option Str) :
    DispatchResult × Registry :=
  if (getActiveTasks reg).length ≥ MAX_CONCURRENT_TASKS then
    (.capacityExceeded, reg)
  else if ¬ dirExists then
    (.invalidTarget, reg)
  else
    let task := spawnInit now (Task.make newId description workDir model permissionMode now)
    (.dispatched newId, reg ++ [(newId, task)])

/-- Outcome of the `cancel_task` handler. -/
inductive CancelResult where
  | notFound
  | alreadyTerminal (st : Status)
  | ok
deriving Repr, DecidableEq

/-- The `cancel_task` handler (source lines 652-693): refuse unknown ids and
tasks that are not starting/running; otherwise signal the worker (no record
effect), set `cancelled` and stamp completion. -/
def cancel_task (now : Nat) (reg : Registry) (tid : Str) : CancelResult × Registry :=
  match findTask reg tid with
  | none => (.notFound, reg)
  | some t =>
    if t.status ≠ Status.running ∧ t.status ≠ Status.starting then
      (.alreadyTerminal t.status, reg)
    else
      (.ok, setTask reg tid { t with status := Status.cancelled, completedAt := some now })

/-- The output selection of the `get_task_output` handler (source lines
620-625): prefer `resultText`, fall back to raw `stdout`, else a
placeholder; apply tail-line truncation only for a truthy positive
`tail_lines` (`args.tail_lines && args.tail_lines > 0`). -/
def taskOutput (t : Task) (tailLines : Option Int) : Str :=
  let output :=
    if t.resultText ≠ [] then t.resultText
    else if t.stdout ≠ [] then t.stdout
    else "(no output yet)".data
  match tailLines with
  | some n =>
    if n ≠ 0 ∧ 0 < n then joinNl (takeLast n.toNat (splitNl output))
    else output
  | none => output

/-- A sequence of `addProgress` insertions `(timestamp, type, summary)`
applied in order. -/
def addMany (t : Task) (es : List (Nat × Str × Str)) : Task :=
  es.foldl (fun t x => addProgress x.1 t x.2.1 x.2.2) t

/-- The stored entry corresponding to one insertion. -/
def entryOf (x : Nat × Str × Str) : Progress := ⟨x.1, x.2.1, x.2.2⟩

/-- Byte-at-a-time delivery of a stream: the k-th byte arrives as its own
chunk at time `times k`. -/
def deliverBytes (decode : Str → Option JVal) (times : Nat → Nat) :
    Nat → Task → Str → Task
  | _, t, [] => t
  | k, t, c :: rest =>
      deliverBytes decode times (k + 1) (processStreamData decode (times k) t [c]) rest

/-- Single-character view of the reassembler, used to prove chunk-boundary
independence: a newline completes and processes the buffered segment, any
other byte extends the buffer. -/
def stepChar (decode : Str → Option JVal) (now : Nat) (t : Task) (c : Char) : Task :=
  if c = '\n' then processLine decode now { t with buffer := [] } t.buffer
  else { t with buffer := t.buffer ++ [c] }

/-- Equality of the observable stream-processing state: progress history
(categories and summaries, in order), assembled result text, raw fallback
output and reassembly buffer — everything except timestamps. -/
def ViewEq (t t₂ : Task) : Prop :=
  t.progressLog.map (fun p => (p.type, p.summary))
      = t₂.progressLog.map (fun p => (p.type, p.summary)) ∧
  t.resultText = t₂.resultText ∧ t.stdout = t₂.stdout ∧ t.buffer = t₂.buffer

/-! Concrete fixtures used by witnesses and counterexamples. -/

/-- A decode function that fails on every segment (`JSON.parse` throws on
plain text such as `nope`). -/
def decodeNone : Str → Option JVal := fun _ => none

/-- A fresh task as constructed at dispatch time. -/
def task0 : Task := Task.make "t1".data "demo".data "/tmp".data none none 0

/-- `task0` after the synchronous part of `spawnClaudeAgent`: running. -/
def taskRun : Task := spawnInit 0 task0

/-- `taskRun` after a successful cancel at time 1. -/
def taskCancelled : Task :=
  { taskRun with status := Status.cancelled, completedAt := some 1 }

/-- `taskRun` after its worker exited cleanly: completed. -/
def taskDone : Task := closeStep decodeNone 2 taskRun (some 0)

/-- Decoded form of an assistant message record whose only content block is
the text "Hello ". -/
def evMsgHello : JVal :=
  .jobj [("type".data, .jstr "assistant".data),
         ("message".data, .jobj [("type".data, .jstr "message".data),
           ("content".data, .jarr [.jobj [("type".data, .jstr "text".data),
             ("text".data, .jstr "Hello ".data)]])])]

/-- Decoded form of a terminal result record carrying "World". -/
def evResultWorld : JVal :=
  .jobj [("type".data, .jstr "result".data), ("result".data, .jstr "World".data)]

/-- Decoded form of a terminal result record carrying "Done". -/
def evResultDone : JVal :=
  .jobj [("type".data, .jstr "result".data), ("result".data, .jstr "Done".data)]

/-- The serialized text of the "Done" result record. -/
def jsonResultDone : Str :=
  "\x7b\"type\":\"result\",\"result\":\"Done\"\x7d".data

/-- A decode function behaving like `JSON.parse` on `jsonResultDone` and
failing elsewhere. -/
def decodeResultDone : Str → Option JVal :=
  fun s => if s = jsonResultDone then some evResultDone else none

/-- A running task whose residual buffer holds an unterminated result
record. -/
def taskResBuf : Task := { taskRun with buffer := jsonResultDone }

/-- A running task whose residual buffer holds undecodable text with
leading whitespace. -/
def taskRawBuf : Task := { taskRun with buffer := " nope".data }

/-- Decoded form of an assistant message record whose only content block is
the text "Hi". -/
def evAssistantHi : JVal :=
  .jobj [("type".data, .jstr "assistant".data),
         ("message".data, .jobj [("type".data, .jstr "message".data),
           ("content".data, .jarr [.jobj [("type".data, .jstr "text".data),
             ("text".data, .jstr "Hi".data)]])])]

/-- The serialized text of the "Hi" assistant record. -/
def jsonAssistantHi : Str :=
  "\x7b\"type\":\"assistant\",\"message\":\x7b\"type\":\"message\",\"content\":[\x7b\"type\":\"text\",\"text\":\"Hi\"\x7d]\x7d\x7d".data

/-- A decode function behaving like `JSON.parse` on `jsonAssistantHi` and
failing elsewhere. -/
def decodeAssistantHi : Str → Option JVal :=
  fun s => if s = jsonAssistantHi then some evAssistantHi else none

/-- A running task whose residual buffer holds the unterminated "Hi"
assistant record. -/
def taskHiBuf : Task := { taskRun with buffer := jsonAssistantHi }

/-- Five registered running tasks: the admission ceiling is reached. -/
def reg5 : Registry :=
  [("a".data, taskRun), ("b".data, taskRun), ("c".data, taskRun),
   ("d".data, taskRun), ("e".data, taskRun)]

/-! ### Helper lemmas -/

/-- `cancel_task` on a task that is neither running nor starting fails with
`AlreadyTerminal` and returns the registry unchanged. -/
theorem cancel_nonactive_unchanged (now : Nat) (reg : Registry) (tid : Str) (t : Task)
    (hfind : findTask reg tid = some t)
    (hr : t.status ≠ Status.running) (hs : t.status ≠ Status.starting) :
    cancel_task now reg tid = (CancelResult.alreadyTerminal t.status, reg) := by
  unfold cancel_task
  rw [hfind]
  simp [hr, hs]

/-- The `close` handler sets the status from the exit code alone, whatever
the previous status was. -/
theorem closeStep_status (decode : Str → Option JVal) (now : Nat) (t : Task)
    (code : Option Int) :
    (closeStep decode now t code).status
      = (if code = some 0 then Status.completed else Status.failed) := by
  unfold closeStep
  split <;> rfl

/-- `takeLast` is Mathlib's `List.rtake`. -/
theorem takeLast_eq_rtake {α : Type} (n : Nat) (l : List α) : takeLast n l = l.rtake n := rfl

/-- `takeLast` keeps at most `n` elements. -/
theorem takeLast_length_le {α : Type} (n : Nat) (l : List α) : (takeLast n l).length ≤ n := by
  simp [takeLast]
  omega

/-- `takeLast` of a short-enough list is the list itself. -/
theorem takeLast_of_length_le {α : Type} {n : Nat} {l : List α} (h : l.length ≤ n) :
    takeLast n l = l := by
  simp [takeLast, Nat.sub_eq_zero_of_le h]

/-- Taking a positive prefix keeps the head. -/
theorem head?_take_pos {α : Type} {n : Nat} (hn : 0 < n) (l : List α) :
    (l.take n).head? = l.head? := by
  cases l with
  | nil => simp
  | cons a l =>
    cases n with
    | zero => omega
    | succ m => simp

/-- `takeLast n` (with `n > 0`) keeps the last element. -/
theorem takeLast_getLast? {α : Type} (n : Nat) (hn : 0 < n) (l : List α) :
    (takeLast n l).getLast? = l.getLast? := by
  have h1 : (takeLast n l).reverse = l.reverse.take n := by
    simp [takeLast_eq_rtake, List.rtake_eq_reverse_take_reverse]
  calc (takeLast n l).getLast? = (takeLast n l).reverse.head? := (List.head?_reverse _).symm
    _ = (l.reverse.take n).head? := by rw [h1]
    _ = l.reverse.head? := head?_take_pos hn _
    _ = l.getLast? := List.head?_reverse _

/-- Truncating the left part again does not change a right-truncation. -/
theorem takeLast_append_absorb {α : Type} (n : Nat) (x y : List α) :
    takeLast n (takeLast n x ++ y) = takeLast n (x ++ y) := by
  simp only [takeLast_eq_rtake, List.rtake_eq_reverse_take_reverse]
  rw [List.reverse_append, List.reverse_reverse, List.reverse_append]
  rw [List.take_append_eq_append_take, List.take_append_eq_append_take]
  congr 1
  rw [List.take_take, Nat.min_eq_left (Nat.sub_le _ _)]

/-- One `addProgress` step keeps exactly the last 50 of the extended log. -/
theorem addProgress_log (now : Nat) (t : Task) (ty su : Str) :
    (addProgress now t ty su).progressLog
      = takeLast 50 (t.progressLog ++ [⟨now, ty, su⟩]) := by
  unfold addProgress
  dsimp only
  split
  · rfl
  · next h => exact (takeLast_of_length_le (Nat.le_of_not_lt h)).symm

/-- Folded insertions keep exactly the last 50 entries. -/
theorem addMany_log (es : List (Nat × Str × Str)) :
    ∀ t : Task, t.progressLog.length ≤ 50 →
      (addMany t es).progressLog = takeLast 50 (t.progressLog ++ es.map entryOf) := by
  induction es with
  | nil =>
    intro t h
    simp [addMany, takeLast_of_length_le h]
  | cons e es ih =>
    intro t h
    have hstep := addProgress_log e.1 t e.2.1 e.2.2
    have hlen : (addProgress e.1 t e.2.1 e.2.2).progressLog.length ≤ 50 := by
      rw [hstep]; exact takeLast_length_le 50 _
    have hrec := ih (addProgress e.1 t e.2.1 e.2.2) hlen
    simp only [addMany, List.foldl_cons] at hrec ⊢
    rw [hrec, hstep, takeLast_append_absorb]
    simp [entryOf]

/-- `seedResult` does nothing when its guard fails. -/
theorem seedResult_noop (t : Task) (e : JVal)
    (h : ¬(getStrField e "type".data = some "result".data ∧
           truthyO (e.get "result".data) ∧ t.resultText = [])) :
    seedResult t e = t := by
  unfold seedResult
  rw [if_neg h]

/-- A result-typed record is not an assistant message. -/
theorem accumText_of_result (t : Task) (e : JVal)
    (h : getStrField e "type".data = some "result".data) :
    accumText t e = t := by
  have hne : ¬ getStrField e "type".data = some "assistant".data := by
    rw [h]; decide
  have hac : assistantContent e = none := by
    unfold assistantContent
    rw [if_neg hne]
  unfold accumText
  rw [hac]

/-- `accumText` commutes with `addProgress` (they update disjoint fields). -/
theorem accumText_addProgress (now : Nat) (t : Task) (e : JVal) (ty su : Str) :
    accumText (addProgress now t ty su) e = addProgress now (accumText t e) ty su := by
  unfold accumText
  cases hac : assistantContent e <;> rfl

/-- `accumText` commutes with `addEntries`. -/
theorem accumText_addEntries (now : Nat) (t : Task) (e : JVal) (p : Option (List PEntry)) :
    accumText (addEntries now t p) e = addEntries now (accumText t e) p := by
  cases p with
  | none => rfl
  | some entries =>
    induction entries generalizing t with
    | nil => rfl
    | cons a as ih =>
      simp only [addEntries, List.foldl_cons] at ih ⊢
      rw [← accumText_addProgress]
      exact ih (addProgress now t a.type a.summary)

/-- `addProgress` neither reads nor writes the buffer. -/
theorem addProgress_buffer (now : Nat) (t : Task) (ty su : Str) (x : Str) :
    addProgress now { t with buffer := x } ty su
      = { addProgress now t ty su with buffer := x } := rfl

/-- `addEntries` neither reads nor writes the buffer. -/
theorem addEntries_buffer (now : Nat) (t : Task) (p : Option (List PEntry)) (x : Str) :
    addEntries now { t with buffer := x } p = { addEntries now t p with buffer := x } := by
  cases p with
  | none => rfl
  | some entries =>
    induction entries generalizing t with
    | nil => rfl
    | cons a as ih =>
      simp only [addEntries, List.foldl_cons] at ih ⊢
      rw [addProgress_buffer]
      exact ih (addProgress now t a.type a.summary)

/-- `accumText` neither reads nor writes the buffer. -/
theorem accumText_buffer (t : Task) (e : JVal) (x : Str) :
    accumText { t with buffer := x } e = { accumText t e with buffer := x } := by
  unfold accumText
  cases hac : assistantContent e <;> rfl

/-! ### Stream-splitting lemmas -/

theorem consHead_ne_nil (c : Char) (l : List Str) : consHead c l ≠ [] := by
  cases l <;> simp [consHead]

theorem splitNl_ne_nil (s : Str) : splitNl s ≠ [] := by
  cases s with
  | nil => simp [splitNl]
  | cons c rest =>
    unfold splitNl
    split
    · simp
    · exact consHead_ne_nil c _

theorem mergeHead_nil {l : List Str} (h : l ≠ []) : mergeHead [] l = l := by
  cases l with
  | nil => exact absurd rfl h
  | cons y ys => simp [mergeHead]

theorem consHead_mergeHead (c : Char) (p : Str) (l : List Str) :
    consHead c (mergeHead p l) = mergeHead (c :: p) l := by
  cases l <;> simp [consHead, mergeHead]

theorem mergeHead_consHead (p : Str) (c : Char) (l : List Str) :
    mergeHead p (consHead c l) = mergeHead (p ++ [c]) l := by
  cases l <;> simp [consHead, mergeHead]

theorem splitNl_cons_nl (s : Str) : splitNl ('\n' :: s) = [] :: splitNl s := by
  simp [splitNl]

theorem splitNl_cons_ne {c : Char} (hc : ¬ c = '\n') (s : Str) :
    splitNl (c :: s) = consHead c (splitNl s) := by
  simp [splitNl, hc]

theorem splitNl_prepend {x : Str} (s : Str) (h : '\n' ∉ x) :
    splitNl (x ++ s) = mergeHead x (splitNl s) := by
  induction x with
  | nil => exact (mergeHead_nil (splitNl_ne_nil s)).symm
  | cons c x ih =>
    have hc : ¬ c = '\n' := by
      intro hEq
      apply h
      rw [← hEq]
      exact List.mem_cons_self c x
    have hx : '\n' ∉ x := fun m => h (List.mem_cons_of_mem c m)
    rw [List.cons_append, splitNl_cons_ne hc, ih hx, consHead_mergeHead]

theorem splitNl_eq_single {x : Str} (h : '\n' ∉ x) : splitNl x = [x] := by
  have h1 := splitNl_prepend (x := x) [] h
  rw [List.append_nil] at h1
  rw [h1]
  simp [splitNl, mergeHead]

theorem getLastD_irrel {α : Type} {l : List α} (h : l ≠ []) (d d' : α) :
    l.getLastD d = l.getLastD d' := by
  cases l with
  | nil => exact absurd rfl h
  | cons a l => rw [List.getLastD_cons, List.getLastD_cons]

/-! ### Buffer-isolation lemmas: the per-line pipeline neither reads nor
writes the reassembly buffer. -/

theorem addProgress_buffer_read (now : Nat) (t : Task) (ty su : Str) :
    (addProgress now t ty su).buffer = t.buffer := rfl

theorem addEntries_buffer_read (now : Nat) (t : Task) (p : Option (List PEntry)) :
    (addEntries now t p).buffer = t.buffer := by
  cases p with
  | none => rfl
  | some entries =>
    induction entries generalizing t with
    | nil => rfl
    | cons a as ih =>
      simp only [addEntries, List.foldl_cons] at ih ⊢
      rw [ih (addProgress now t a.type a.summary)]
      rfl

theorem accumText_buffer_read (t : Task) (e : JVal) : (accumText t e).buffer = t.buffer := by
  unfold accumText
  cases assistantContent e <;> rfl

theorem seedResult_eq (t : Task) (e : JVal) :
    seedResult t e = { t with resultText := seedValue t.resultText e } := by
  unfold seedResult seedValue
  by_cases hg : getStrField e "type".data = some "result".data ∧
      truthyO (e.get "result".data) ∧ t.resultText = []
  · rw [if_pos hg, if_pos hg]
    split <;> try rfl
    all_goals split <;> try rfl
    all_goals split <;> rfl
  · rw [if_neg hg, if_neg hg]

theorem seedResult_buffer_read (t : Task) (e : JVal) : (seedResult t e).buffer = t.buffer := by
  rw [seedResult_eq]

theorem processEvent_buffer_read (now : Nat) (t : Task) (e : JVal) :
    (processEvent now t e).buffer = t.buffer := by
  unfold processEvent
  rw [addEntries_buffer_read, seedResult_buffer_read, accumText_buffer_read]

theorem processLine_buffer_read (d : Str → Option JVal) (n : Nat) (t : Task) (l : Str) :
    (processLine d n t l).buffer = t.buffer := by
  unfold processLine
  by_cases hb : trimStr l = []
  · rw [if_pos hb]
  · rw [if_neg hb]
    cases d (trimStr l) with
    | some e => exact processEvent_buffer_read n t e
    | none => rfl

theorem seedResult_buffer (t : Task) (e : JVal) (x : Str) :
    seedResult { t with buffer := x } e = { seedResult t e with buffer := x } := by
  rw [seedResult_eq, seedResult_eq]

theorem processEvent_buffer (now : Nat) (t : Task) (e : JVal) (x : Str) :
    processEvent now { t with buffer := x } e = { processEvent now t e with buffer := x } := by
  unfold processEvent
  rw [accumText_buffer, seedResult_buffer, addEntries_buffer]

theorem processLine_buffer (d : Str → Option JVal) (n : Nat) (t : Task) (line x : Str) :
    processLine d n { t with buffer := x } line
      = { processLine d n t line with buffer := x } := by
  unfold processLine
  by_cases hb : trimStr line = []
  · rw [if_pos hb, if_pos hb]
  · rw [if_neg hb, if_neg hb]
    cases d (trimStr line) with
    | some e => exact processEvent_buffer n t e x
    | none => rfl

/-! ### The reassembler as a character machine -/

theorem stepChar_noNl (d : Str → Option JVal) (n : Nat) (t : Task) (c : Char)
    (h : '\n' ∉ t.buffer) : '\n' ∉ (stepChar d n t c).buffer := by
  unfold stepChar
  by_cases hc : c = '\n'
  · rw [if_pos hc, processLine_buffer_read]
    simp
  · rw [if_neg hc]
    intro hm
    rcases List.mem_append.mp hm with hm1 | hm2
    · exact h hm1
    · exact hc (List.mem_singleton.mp hm2).symm

theorem psd_nil (d : Str → Option JVal) (n : Nat) (t : Task) (h : '\n' ∉ t.buffer) :
    processStreamData d n t [] = t := by
  unfold processStreamData
  dsimp only
  rw [List.append_nil, splitNl_eq_single h]
  rfl

theorem psd_shape (d : Str → Option JVal) (n : Nat) (t : Task) (raw : Str)
    (h : '\n' ∉ t.buffer) :
    processStreamData d n t raw
      = (mergeHead t.buffer (splitNl raw)).dropLast.foldl (processLine d n)
          { t with buffer := (mergeHead t.buffer (splitNl raw)).getLastD [] } := by
  unfold processStreamData
  dsimp only
  rw [splitNl_prepend raw h]

theorem psd_cons (d : Str → Option JVal) (n : Nat) (t : Task) (c : Char) (rest : Str)
    (h : '\n' ∉ t.buffer) :
    processStreamData d n t (c :: rest) = processStreamData d n (stepChar d n t c) rest := by
  by_cases hc : c = '\n'
  · subst hc
    have hX : stepChar d n t '\n' = processLine d n { t with buffer := [] } t.buffer := by
      unfold stepChar
      rw [if_pos rfl]
    have hXbuf : (stepChar d n t '\n').buffer = [] := by
      rw [hX, processLine_buffer_read]
    have hXnl : '\n' ∉ (stepChar d n t '\n').buffer := by
      rw [hXbuf]
      simp
    rw [psd_shape d n t _ h, psd_shape d n _ rest hXnl, hXbuf,
        mergeHead_nil (splitNl_ne_nil rest), splitNl_cons_nl]
    cases hsr : splitNl rest with
    | nil => exact absurd hsr (splitNl_ne_nil rest)
    | cons y ys =>
      have hm : mergeHead t.buffer ([] :: y :: ys) = t.buffer :: y :: ys := by
        simp [mergeHead]
      rw [hm]
      rw [show (t.buffer :: y :: ys).getLastD [] = (y :: ys).getLastD t.buffer from
            List.getLastD_cons _ _ _,
          show (y :: ys).getLastD t.buffer = ys.getLastD y from List.getLastD_cons _ _ _,
          show (y :: ys).getLastD [] = ys.getLastD y from List.getLastD_cons _ _ _]
      rw [show (t.buffer :: y :: ys).dropLast = t.buffer :: (y :: ys).dropLast from rfl]
      rw [List.foldl_cons]
      have hbase : processLine d n { t with buffer := ys.getLastD y } t.buffer
          = { stepChar d n t '\n' with buffer := ys.getLastD y } := by
        rw [processLine_buffer d n t t.buffer (ys.getLastD y), hX,
            processLine_buffer d n t t.buffer []]
      rw [hbase]
  · have ht₂ : stepChar d n t c = { t with buffer := t.buffer ++ [c] } := by
      unfold stepChar
      rw [if_neg hc]
    have h₂ : '\n' ∉ (stepChar d n t c).buffer := stepChar_noNl d n t c h
    rw [psd_shape d n t _ h, psd_shape d n _ rest h₂, ht₂, splitNl_cons_ne hc,
        mergeHead_consHead]

theorem psd_eq_foldl (d : Str → Option JVal) (n : Nat) :
    ∀ (raw : Str) (t : Task), '\n' ∉ t.buffer →
      processStreamData d n t raw = List.foldl (stepChar d n) t raw := by
  intro raw
  induction raw with
  | nil =>
    intro t h
    exact psd_nil d n t h
  | cons c rest ih =>
    intro t h
    rw [psd_cons d n t c rest h, List.foldl_cons]
    exact ih (stepChar d n t c) (stepChar_noNl d n t c h)

/-! ### Timestamp-independence: `ViewEq` congruence lemmas -/

theorem viewEq_refl (t : Task) : ViewEq t t := ⟨rfl, rfl, rfl, rfl⟩

theorem viewEq_addProgress {t t₂ : Task} (h : ViewEq t t₂) (n n₂ : Nat) (ty su : Str) :
    ViewEq (addProgress n t ty su) (addProgress n₂ t₂ ty su) := by
  obtain ⟨hlog, hres, hout, hbuf⟩ := h
  have hlen : t.progressLog.length = t₂.progressLog.length := by
    have h1 := congrArg List.length hlog
    simpa using h1
  have hmap : (t.progressLog ++ [(⟨n, ty, su⟩ : Progress)]).map (fun p => (p.type, p.summary))
      = (t₂.progressLog ++ [(⟨n₂, ty, su⟩ : Progress)]).map (fun p => (p.type, p.summary)) := by
    rw [List.map_append, List.map_append, hlog]
    rfl
  have hlen2 : (t.progressLog ++ [(⟨n, ty, su⟩ : Progress)]).length
      = (t₂.progressLog ++ [(⟨n₂, ty, su⟩ : Progress)]).length := by
    rw [List.length_append, List.length_append, hlen]
    rfl
  unfold addProgress
  dsimp only
  refine ⟨?_, hres, hout, hbuf⟩
  by_cases hcond : (t.progressLog ++ [(⟨n, ty, su⟩ : Progress)]).length > 50
  · rw [if_pos hcond, if_pos (hlen2 ▸ hcond)]
    rw [List.map_drop, List.map_drop, hmap, hlen2]
  · rw [if_neg hcond, if_neg (hlen2 ▸ hcond)]
    exact hmap

theorem viewEq_accumText {t t₂ : Task} (h : ViewEq t t₂) (e : JVal) :
    ViewEq (accumText t e) (accumText t₂ e) := by
  obtain ⟨hlog, hres, hout, hbuf⟩ := h
  unfold accumText
  cases assistantContent e with
  | none => exact ⟨hlog, hres, hout, hbuf⟩
  | some blocks =>
    refine ⟨hlog, ?_, hout, hbuf⟩
    dsimp only
    rw [hres]

theorem viewEq_seedResult {t t₂ : Task} (h : ViewEq t t₂) (e : JVal) :
    ViewEq (seedResult t e) (seedResult t₂ e) := by
  obtain ⟨hlog, hres, hout, hbuf⟩ := h
  rw [seedResult_eq, seedResult_eq]
  exact ⟨hlog, by dsimp only; rw [hres], hout, hbuf⟩

theorem viewEq_foldl_addProgress (n n₂ : Nat) (entries : List PEntry) :
    ∀ {t t₂ : Task}, ViewEq t t₂ →
      ViewEq (entries.foldl (fun t e => addProgress n t e.type e.summary) t)
             (entries.foldl (fun t e => addProgress n₂ t e.type e.summary) t₂) := by
  induction entries with
  | nil =>
    intro t t₂ h
    exact h
  | cons a as ih =>
    intro t t₂ h
    rw [List.foldl_cons, List.foldl_cons]
    exact ih (viewEq_addProgress h n n₂ a.type a.summary)

theorem viewEq_addEntries {t t₂ : Task} (h : ViewEq t t₂) (n n₂ : Nat)
    (p : Option (List PEntry)) :
    ViewEq (addEntries n t p) (addEntries n₂ t₂ p) := by
  cases p with
  | none => exact h
  | some entries => exact viewEq_foldl_addProgress n n₂ entries h

theorem viewEq_processEvent {t t₂ : Task} (h : ViewEq t t₂) (n n₂ : Nat) (e : JVal) :
    ViewEq (processEvent n t e) (processEvent n₂ t₂ e) := by
  unfold processEvent
  exact viewEq_addEntries (viewEq_seedResult (viewEq_accumText h e) e) n n₂ _

theorem viewEq_processLine {t t₂ : Task} (h : ViewEq t t₂) (d : Str → Option JVal)
    (n n₂ : Nat) (line : Str) :
    ViewEq (processLine d n t line) (processLine d n₂ t₂ line) := by
  unfold processLine
  by_cases hb : trimStr line = []
  · rw [if_pos hb, if_pos hb]
    exact h
  · rw [if_neg hb, if_neg hb]
    cases d (trimStr line) with
    | some e => exact viewEq_processEvent h n n₂ e
    | none =>
      obtain ⟨hlog, hres, hout, hbuf⟩ := h
      exact ⟨hlog, hres, by dsimp only; rw [hout], hbuf⟩

theorem viewEq_setBuffer {t t₂ : Task} (h : ViewEq t t₂) (x : Str) :
    ViewEq { t with buffer := x } { t₂ with buffer := x } :=
  ⟨h.1, h.2.1, h.2.2.1, rfl⟩

theorem viewEq_stepChar {t t₂ : Task} (h : ViewEq t t₂) (d : Str → Option JVal)
    (n n₂ : Nat) (c : Char) :
    ViewEq (stepChar d n t c) (stepChar d n₂ t₂ c) := by
  unfold stepChar
  by_cases hc : c = '\n'
  · rw [if_pos hc, if_pos hc, h.2.2.2]
    exact viewEq_processLine (viewEq_setBuffer h []) d n n₂ t₂.buffer
  · rw [if_neg hc, if_neg hc]
    exact ⟨h.1, h.2.1, h.2.2.1, by dsimp only; rw [h.2.2.2]⟩

theorem viewEq_flushBuffer {t t₂ : Task} (h : ViewEq t t₂) (d : Str → Option JVal)
    (n n₂ : Nat) :
    ViewEq (flushBuffer d n t) (flushBuffer d n₂ t₂) := by
  unfold flushBuffer
  dsimp only
  rw [h.2.2.2]
  by_cases hg : trimStr t₂.buffer ≠ []
  · rw [if_pos hg, if_pos hg]
    cases d (trimStr t₂.buffer) with
    | some e =>
      exact viewEq_setBuffer
        (viewEq_accumText (viewEq_addEntries h n n₂ (parseProgressEvent e)) e) []
    | none =>
      obtain ⟨hlog, hres, hout, hbuf⟩ := h
      exact ⟨hlog, hres, by dsimp only; rw [hout], rfl⟩
  · rw [if_neg hg, if_neg hg]
    exact h

theorem deliverBytes_viewEq (d : Str → Option JVal) (times : Nat → Nat) (n₀ : Nat) :
    ∀ (s : Str) (k : Nat) (t t₂ : Task), ViewEq t t₂ → '\n' ∉ t.buffer →
      ViewEq (deliverBytes d times k t s) (List.foldl (stepChar d n₀) t₂ s) := by
  intro s
  induction s with
  | nil =>
    intro k t t₂ h _
    exact h
  | cons c rest ih =>
    intro k t t₂ h hb
    have h1 : processStreamData d (times k) t [c] = stepChar d (times k) t c := by
      rw [psd_eq_foldl d (times k) [c] t hb]
      rfl
    show ViewEq (deliverBytes d times (k + 1) (processStreamData d (times k) t [c]) rest) _
    rw [List.foldl_cons, h1]
    exact ih (k + 1) (stepChar d (times k) t c) (stepChar d n₀ t₂ c)
      (viewEq_stepChar h d (times k) n₀ c) (stepChar_noNl d (times k) t c hb)

/-! ### Claims -/

/-- C1 (counterexample): the claim "once terminal, the status never changes;
in particular a cancelled task stays cancelled when the exit callback fires"
is false on the code.  A running task is cancelled — its registry entry gets
status `cancelled` — and when the worker's `close` callback then fires (exit
code `null` after the kill), the status is overwritten with `failed`. -/
theorem c1_counterexample :
    cancel_task 1 [("a".data, taskRun)] "a".data = (.ok, [("a".data, taskCancelled)]) ∧
    taskCancelled.status = Status.cancelled ∧
    (closeStep decodeNone 2 taskCancelled none).status = Status.failed :=
  ⟨rfl, rfl, rfl⟩

/-- C1 (amended): the cancel operation never moves a task out of a terminal
status — it fails with `AlreadyTerminal` and leaves the registry untouched —
but the worker's exit callback unconditionally overwrites the status with
`completed` (exit code 0) or `failed` (anything else), even when the task was
already cancelled; so a task cancelled by `cancel_task` does not keep status
`cancelled` once the exit callback fires. -/
theorem c1_terminal_status (decode : Str → Option JVal) (now now₂ : Nat) (reg : Registry)
    (tid : Str) (t t₂ : Task) (code : Option Int)
    (hfind : findTask reg tid = some t)
    (hterm : t.status = Status.completed ∨ t.status = Status.failed ∨
             t.status = Status.cancelled) :
    cancel_task now reg tid = (CancelResult.alreadyTerminal t.status, reg) ∧
    (closeStep decode now₂ t₂ code).status
      = (if code = some 0 then Status.completed else Status.failed) := by
  have hr : t.status ≠ Status.running := by rcases hterm with h | h | h <;> simp [h]
  have hs : t.status ≠ Status.starting := by rcases hterm with h | h | h <;> simp [h]
  exact ⟨cancel_nonactive_unchanged now reg tid t hfind hr hs,
         closeStep_status decode now₂ t₂ code⟩

/-- C1 (witness): instantiated at a registry holding one cancelled task and
a close callback with exit code 0. -/
theorem c1_witness :
    cancel_task 7 [("z".data, taskCancelled)] "z".data
        = (CancelResult.alreadyTerminal taskCancelled.status, [("z".data, taskCancelled)]) ∧
    (closeStep decodeNone 8 taskCancelled (some 0)).status
        = (if (some 0 : Option Int) = some 0 then Status.completed else Status.failed) :=
  c1_terminal_status decodeNone 7 8 [("z".data, taskCancelled)] "z".data
    taskCancelled taskCancelled (some 0) rfl (Or.inr (Or.inr rfl))

/-- C2: delivering a byte stream to the reassembler one byte per chunk (at
arbitrary per-chunk timestamps) and then applying the end-of-process flush
yields the same observable state — progress-history categories and summaries
in order, assembled result text, raw fallback output and reassembly buffer —
as delivering the whole stream in a single chunk followed by the same flush.
The hypothesis states the reassembler invariant that the starting buffer
holds no record separator (true of every reachable task state). -/
theorem c2_chunk_independence (d : Str → Option JVal) (times : Nat → Nat)
    (n₀ nf nf₂ : Nat) (t : Task) (s : Str) (h : '\n' ∉ t.buffer) :
    ViewEq (flushBuffer d nf (deliverBytes d times 0 t s))
           (flushBuffer d nf₂ (processStreamData d n₀ t s)) := by
  have h1 := deliverBytes_viewEq d times n₀ s 0 t t (viewEq_refl t) h
  rw [psd_eq_foldl d n₀ s t h]
  exact viewEq_flushBuffer h1 d nf nf₂

/-- C2 (witness): the stream `ab\ncd` delivered byte-by-byte at times
0,1,2,… versus in one chunk at time 0, to a fresh task. -/
theorem c2_witness :
    ViewEq (flushBuffer decodeNone 1 (deliverBytes decodeNone id 0 task0 "ab\ncd".data))
           (flushBuffer decodeNone 2 (processStreamData decodeNone 0 task0 "ab\ncd".data)) :=
  c2_chunk_independence decodeNone id 0 1 2 task0 "ab\ncd".data (by decide)

/-- C3: a terminal result record's payload seeds the assembled result text
only when no message text was accumulated before it: a message record with
text "Hello " followed by a result record carrying "World" leaves the
assembled text "Hello ", while a result record carrying "Done" processed
alone makes it "Done". -/
theorem c3_result_seeding :
    (processEvent 1 (processEvent 0 task0 evMsgHello) evResultWorld).resultText
        = "Hello ".data ∧
    (processEvent 0 task0 evResultDone).resultText = "Done".data :=
  ⟨by decide, by decide⟩

/-- C4: starting from any task whose progress history respects the 50-entry
bound, an arbitrary sequence of insertions leaves exactly the 50 newest
entries in insertion order — so the history never exceeds 50 entries, the
evicted entries are exactly the oldest (FIFO), and the most recently
inserted entry is always the last one retained. -/
theorem c4_progress_bound (t : Task) (es : List (Nat × Str × Str))
    (h : t.progressLog.length ≤ 50) :
    (addMany t es).progressLog = takeLast 50 (t.progressLog ++ es.map entryOf) ∧
    (addMany t es).progressLog.length ≤ 50 ∧
    (addMany t es).progressLog.getLast? = (t.progressLog ++ es.map entryOf).getLast? := by
  have hlog := addMany_log es t h
  refine ⟨hlog, ?_, ?_⟩
  · rw [hlog]; exact takeLast_length_le 50 _
  · rw [hlog]; exact takeLast_getLast? 50 (by omega) _

/-- C4 (witness): two insertions into a fresh task. -/
theorem c4_witness :
    (addMany task0 [(1, "x".data, "s1".data), (2, "y".data, "s2".data)]).progressLog
        = takeLast 50 (task0.progressLog
            ++ [(1, "x".data, "s1".data), (2, "y".data, "s2".data)].map entryOf) ∧
    (addMany task0 [(1, "x".data, "s1".data), (2, "y".data, "s2".data)]).progressLog.length
        ≤ 50 ∧
    (addMany task0 [(1, "x".data, "s1".data), (2, "y".data, "s2".data)]).progressLog.getLast?
        = (task0.progressLog
            ++ [(1, "x".data, "s1".data), (2, "y".data, "s2".data)].map entryOf).getLast? :=
  c4_progress_bound task0 [(1, "x".data, "s1".data), (2, "y".data, "s2".data)] (by decide)

/-- C5: with exactly five registered tasks in running status (the configured
ceiling), a dispatch request fails with `CapacityExceeded` and the registry
is returned unchanged — no task is created, registered or mutated (the fresh
identifier and the directory check are consulted only past the gate). -/
theorem c5_capacity_exceeded (dirExists : Bool) (newId : Str) (now : Nat) (reg : Registry)
    (description workDir : Str) (model permissionMode : Option Str)
    (h : (getActiveTasks reg).length = 5) :
    dispatch_task dirExists newId now reg description workDir model permissionMode
      = (DispatchResult.capacityExceeded, reg) := by
  simp [dispatch_task, h, MAX_CONCURRENT_TASKS]

/-- C5 (witness): a sixth dispatch against five running tasks. -/
theorem c5_witness :
    dispatch_task true "f".data 9 reg5 "x".data "/tmp".data none none
      = (DispatchResult.capacityExceeded, reg5) :=
  c5_capacity_exceeded true "f".data 9 reg5 "x".data "/tmp".data none none (by decide)

/-- C6 (counterexample): the end-of-process flush does not have all the
side effects of in-stream segment processing.  A residual result record is
flushed without seeding the assembled result text (processing the same
segment in-stream seeds "Done"), and an undecodable residue is appended
raw — untrimmed and without the separator — unlike the in-stream fallback. -/
theorem c6_counterexample :
    ((flushBuffer decodeResultDone 9 taskResBuf).resultText = [] ∧
      (processLine decodeResultDone 9 { taskResBuf with buffer := [] }
        taskResBuf.buffer).resultText = "Done".data) ∧
    ((flushBuffer decodeNone 9 taskRawBuf).stdout = " nope".data ∧
      (processLine decodeNone 9 { taskRawBuf with buffer := [] }
        taskRawBuf.buffer).stdout = "nope\n".data) :=
  ⟨⟨by decide, by decide⟩, ⟨by decide, by decide⟩⟩

/-- C6 (amended): the residual buffer is decode-attempted exactly once with
the same decoding as in-stream segments, and — except that the flush lacks
the result-seeding step (a terminal result record with a truthy payload and
an empty accumulated text does not seed at flush) and that a decode failure
appends the raw untrimmed buffer without a trailing separator — a decoded
residue has exactly the same side effects as the same segment processed
in-stream: the flushed task equals the task produced by the in-stream path
on the buffered segment. -/
theorem c6_flush_matches_instream (decode : Str → Option JVal) (now : Nat) (t : Task)
    (e : JVal)
    (h0 : trimStr t.buffer ≠ [])
    (h1 : decode (trimStr t.buffer) = some e)
    (h2 : ¬(getStrField e "type".data = some "result".data ∧
            truthyO (e.get "result".data) ∧ t.resultText = [])) :
    flushBuffer decode now t = processLine decode now { t with buffer := [] } t.buffer := by
  have h2' : ¬(getStrField e "type".data = some "result".data ∧
      truthyO (e.get "result".data) ∧
      (accumText { t with buffer := [] } e).resultText = []) := by
    rintro ⟨ha, hb, hc⟩
    apply h2
    refine ⟨ha, hb, ?_⟩
    rw [accumText_of_result { t with buffer := [] } e ha] at hc
    exact hc
  unfold flushBuffer processLine
  rw [if_pos h0, if_neg h0, h1]
  dsimp only
  unfold processEvent
  rw [seedResult_noop _ e h2']
  conv_rhs => rw [accumText_buffer, addEntries_buffer]
  conv_lhs => rw [accumText_addEntries]

/-- C6 (witness): flushing a residual assistant record matches the
in-stream processing of the same segment exactly. -/
theorem c6_witness :
    flushBuffer decodeAssistantHi 5 taskHiBuf
      = processLine decodeAssistantHi 5 { taskHiBuf with buffer := [] } taskHiBuf.buffer :=
  c6_flush_matches_instream decodeAssistantHi 5 taskHiBuf evAssistantHi
    (by decide) rfl (by decide)

/-- C7 (counterexample): the claim that an undecodable segment is appended
verbatim is false — the segment ` nope ` is appended as `nope\n`, with its
surrounding whitespace stripped. -/
theorem c7_counterexample :
    (processLine decodeNone 0 task0 " nope ".data).stdout = "nope\n".data ∧
    "nope\n".data ≠ " nope \n".data :=
  ⟨rfl, by decide⟩

/-- C7 (amended): a complete segment that fails to decode is appended to the
raw fallback output in trimmed form — leading/trailing whitespace stripped —
followed by the record-separator character; the trimmed content is kept in
full and nothing else of the task's output state changes. -/
theorem c7_fallback_append (decode : Str → Option JVal) (now : Nat) (t : Task)
    (line : Str) (hne : trimStr line ≠ []) (hfail : decode (trimStr line) = none) :
    (processLine decode now t line).stdout = t.stdout ++ trimStr line ++ ['\n'] ∧
    (processLine decode now t line).resultText = t.resultText ∧
    (processLine decode now t line).progressLog = t.progressLog := by
  unfold processLine
  simp [hne, hfail]

/-- C7 (witness): the undecodable segment ` nope ` at time 3. -/
theorem c7_witness :
    (processLine decodeNone 3 task0 " nope ".data).stdout
        = task0.stdout ++ trimStr " nope ".data ++ ['\n'] ∧
    (processLine decodeNone 3 task0 " nope ".data).resultText = task0.resultText ∧
    (processLine decodeNone 3 task0 " nope ".data).progressLog = task0.progressLog :=
  c7_fallback_append decodeNone 3 task0 " nope ".data (by decide) rfl

/-- C8: cancelling a task whose status is terminal (completed, failed or
cancelled) fails with `AlreadyTerminal` and mutates nothing: the registry —
and with it the task's status, timestamps and exit code — is returned
unchanged. -/
theorem c8_cancel_terminal (now : Nat) (reg : Registry) (tid : Str) (t : Task)
    (hfind : findTask reg tid = some t)
    (hterm : t.status = Status.completed ∨ t.status = Status.failed ∨
             t.status = Status.cancelled) :
    cancel_task now reg tid = (CancelResult.alreadyTerminal t.status, reg) := by
  have hr : t.status ≠ Status.running := by rcases hterm with h | h | h <;> simp [h]
  have hs : t.status ≠ Status.starting := by rcases hterm with h | h | h <;> simp [h]
  exact cancel_nonactive_unchanged now reg tid t hfind hr hs

/-- C8 (witness): cancel against a completed task. -/
theorem c8_witness :
    cancel_task 5 [("t1".data, taskDone)] "t1".data
      = (CancelResult.alreadyTerminal taskDone.status, [("t1".data, taskDone)]) :=
  c8_cancel_terminal 5 [("t1".data, taskDone)] "t1".data taskDone rfl (Or.inl rfl)

/-- C9: a segment that is empty or whitespace-only is skipped entirely by
the per-line loop — the task record is returned unchanged, so no progress
entry, no result-text change and no fallback-output append. -/
theorem c9_blank_segment_skipped (decode : Str → Option JVal) (now : Nat) (t : Task)
    (line : Str) (h : trimStr line = []) :
    processLine decode now t line = t := by
  unfold processLine
  simp [h]

/-- C9 (witness): a two-space segment. -/
theorem c9_witness : processLine decodeNone 0 task0 "  ".data = task0 :=
  c9_blank_segment_skipped decodeNone 0 task0 "  ".data (by decide)

/-- C10: tail-line truncation applies only when `tail_lines` is strictly
positive; zero or a negative value returns the full output, identical to
omitting the parameter. -/
theorem c10_tail_nonpositive (t : Task) (n : Int) (h : n ≤ 0) :
    taskOutput t (some n) = taskOutput t none := by
  have hneg : ¬(n ≠ 0 ∧ 0 < n) := by omega
  simp [taskOutput, hneg]

/-- C10 (witness): `tail_lines = -2` returns the full output. -/
theorem c10_witness :
    taskOutput { task0 with resultText := "a\nb\nc".data } (some (-2))
      = taskOutput { task0 with resultText := "a\nb\nc".data } none :=
  c10_tail_nonpositive { task0 with resultText := "a\nb\nc".data } (-2) (by decide)

end ClaudeArmy
